import Mathlib

/-!
Verification of the Athena query-result parser.

A shallow embedding of `src/index.ts` (class `AthenaQueryResultParser`):
the data shapes consumed from `@aws-sdk/client-athena` (`ColumnInfo`,
`Row`, `ResultSet`), the three pure static helpers (`headersFromMeta`,
`rowToObject`, `isHeaderRow`) and the stateful parser operations
(`initHeaders`, `getHeaders`, `parseResultSet`, `parseResultSetWith`,
`reset`), together with theorems settling the specification claims.

JavaScript absence (`undefined`/`null` met by `?.` and `??`) is modelled
with `Option`; a JavaScript object (`Record<string, string | null>`) is
modelled as an insertion-ordered association list written through
`recordSet`, which overwrites the value at an existing key in place and
appends a fresh key at the end — exactly the JS property-assignment
semantics `obj[header] = v`.
-/

namespace AthenaParser

/-- One entry of `ResultSetMetadata.ColumnInfo`: `{ Name?: string }`
(the other AWS fields are never read by the code). -/
structure ColumnInfo where
  Name : Option String
  deriving DecidableEq, Repr

/-- One cell of a `Row`: `{ VarCharValue?: string }`. -/
structure Datum where
  VarCharValue : Option String
  deriving DecidableEq, Repr

/-- An Athena `Row`: `{ Data?: Datum[] }`. -/
structure Row where
  Data : Option (List Datum)
  deriving DecidableEq, Repr

/-- `ResultSetMetadata`: `{ ColumnInfo?: ColumnInfo[] }`. -/
structure ResultSetMetadata where
  ColumnInfo : Option (List ColumnInfo)
  deriving DecidableEq, Repr

/-- An Athena `ResultSet`: `{ ResultSetMetadata?, Rows? }`. -/
structure ResultSet where
  ResultSetMetadata : Option ResultSetMetadata
  Rows : Option (List Row)
  deriving DecidableEq, Repr

/-- `ParsedRow = Record<string, string | null>`: an insertion-ordered
JS object, modelled as an association list from header name to
`string | null` cell value. -/
abbrev ParsedRow := List (String × Option String)

/-- The mutable fields of class `AthenaQueryResultParser`:
`private headers: string[] | null = null` and
`private headerRowDropped = false`. -/
structure ParserState where
  headers : Option (List String)
  headerRowDropped : Bool
  deriving DecidableEq, Repr

/-- The freshly constructed parser: `headers = null`,
`headerRowDropped = false`. -/
def initState : ParserState := { headers := none, headerRowDropped := false }

/-- The cell access `row.Data?.[index]?.VarCharValue ?? null` used by
both `rowToObject` and `isHeaderRow`. -/
def cellAt (row : Row) (index : Nat) : Option String :=
  (row.Data.bind (fun data => data.get? index)).bind (fun d => d.VarCharValue)

/-- Loop body of `headersFromMeta`, carrying the current 0-based index:
`columnInfo.map((col, index) => col?.Name ?? template)` where
`template` is the template literal producing `col_<index>`. -/
def headersFromMetaAux : Nat → List ColumnInfo → List String
  | _, [] => []
  | index, col :: rest =>
    col.Name.getD ("col_" ++ toString index) :: headersFromMetaAux (index + 1) rest

/-- `AthenaQueryResultParser.headersFromMeta`: build the header array
from `ColumnInfo`, substituting `col_<index>` for a nullish `Name`. -/
def headersFromMeta (columnInfo : List ColumnInfo) : List String :=
  headersFromMetaAux 0 columnInfo

/-- JS property assignment `obj[k] = v` on an insertion-ordered object:
overwrite the value at an existing key in place, else append the new
key at the end. -/
def recordSet (obj : ParsedRow) (k : String) (v : Option String) : ParsedRow :=
  match obj with
  | [] => [(k, v)]
  | (k', v') :: rest =>
    if k' = k then (k, v) :: rest else (k', v') :: recordSet rest k v

/-- Loop of `rowToObject`: `for (const [index, header] of
headers.entries()) obj[header] = row.Data?.[index]?.VarCharValue ?? null`. -/
def rowToObjectAux (row : Row) : ParsedRow → Nat → List String → ParsedRow
  | obj, _, [] => obj
  | obj, index, header :: rest =>
    rowToObjectAux row (recordSet obj header (cellAt row index)) (index + 1) rest

/-- `AthenaQueryResultParser.rowToObject`: convert a `Row` into a
header-keyed object. -/
def rowToObject (row : Row) (headers : List String) : ParsedRow :=
  rowToObjectAux row [] 0 headers

/-- Loop of `isHeaderRow`: `headers.every((header, index) =>
(row.Data?.[index]?.VarCharValue ?? null) === header)`. -/
def isHeaderRowAux (row : Row) : Nat → List String → Bool
  | _, [] => true
  | index, header :: rest =>
    (cellAt row index == some header) && isHeaderRowAux row (index + 1) rest

/-- `AthenaQueryResultParser.isHeaderRow`: `if (!row?.Data?.length)
return false;` then the positional comparison of every header. -/
def isHeaderRow (row : Row) (headers : List String) : Bool :=
  match row.Data with
  | none => false
  | some data => if data.isEmpty then false else isHeaderRowAux row 0 headers

/-- `initHeaders`: `if (!this.headers && columnInfo.length > 0)
this.headers = headersFromMeta(columnInfo)`. -/
def initHeaders (s : ParserState) (columnInfo : List ColumnInfo) : ParserState :=
  match s.headers with
  | none =>
    if 0 < columnInfo.length then
      { s with headers := some (headersFromMeta columnInfo) }
    else s
  | some _ => s

/-- `getHeaders`: return the stored headers (or null). -/
def getHeaders (s : ParserState) : Option (List String) :=
  s.headers

/-- `parseResultSet`: returns the decoded rows together with the
post-call parser state. -/
def parseResultSet (s : ParserState) (resultSet : Option ResultSet) :
    List ParsedRow × ParserState :=
  match resultSet with
  | none => ([], s)
  | some rs =>
    let meta := (rs.ResultSetMetadata.bind (fun m => m.ColumnInfo)).getD []
    let s1 := initHeaders s meta
    match s1.headers with
    | none => ([], s1)
    | some headers =>
      let rawRows := rs.Rows.getD []
      let skipHeader := !s1.headerRowDropped &&
        (match rawRows.head? with
         | some first => isHeaderRow first headers
         | none => false)
      let s2 := if skipHeader then { s1 with headerRowDropped := true } else s1
      let rows := if skipHeader then rawRows.tail else rawRows
      (rows.map (fun row => rowToObject row headers), s2)

/-- Loop body of `parseResultSetWith`: `const parsed = rowParser(row);
if (parsed !== null) results.push(parsed)`. -/
def pushStep {T : Type} (rowParser : ParsedRow → Option T)
    (results : List T) (row : ParsedRow) : List T :=
  match rowParser row with
  | some parsed => results ++ [parsed]
  | none => results

/-- `parseResultSetWith`: parse, then run the caller-supplied
`rowParser` over each row, pushing the result onto the output exactly
when it is not the JS `null` marker (`parsed !== null`). -/
def parseResultSetWith {T : Type} (s : ParserState) (resultSet : Option ResultSet)
    (rowParser : ParsedRow → Option T) : List T × ParserState :=
  let p := parseResultSet s resultSet
  (p.1.foldl (pushStep rowParser) [], p.2)

/-- `reset`: `this.headers = null; this.headerRowDropped = false`. -/
def reset (_ : ParserState) : ParserState :=
  { headers := none, headerRowDropped := false }

/-- A sequence of `parseResultSet` calls on one instance, collecting
each call's output and threading the state. -/
def runParses : ParserState → List (Option ResultSet) → List (List ParsedRow) × ParserState
  | s, [] => ([], s)
  | s, input :: rest =>
    let p := parseResultSet s input
    let q := runParses p.2 rest
    (p.1 :: q.1, q.2)

/-- State invariant: stored headers are either the null sentinel or a
non-empty list (never `some []`). -/
def headersInv (s : ParserState) : Prop :=
  s.headers ≠ some []

/-- The decoded association list produced by the `rowToObject` loop when
no key collision occurs, starting from cell index `i`. -/
def decodeFrom (row : Row) : Nat → List String → ParsedRow
  | _, [] => []
  | i, header :: rest => (header, cellAt row i) :: decodeFrom row (i + 1) rest

/-! ## Helper lemmas -/

theorem headersFromMetaAux_length (meta : List ColumnInfo) :
    ∀ i, (headersFromMetaAux i meta).length = meta.length := by
  induction meta with
  | nil => intro i; rfl
  | cons c rest ih => intro i; simp [headersFromMetaAux, ih]

theorem headersFromMetaAux_get? (meta : List ColumnInfo) :
    ∀ (i j : Nat), (headersFromMetaAux i meta)[j]? =
      Option.map (fun c : ColumnInfo => c.Name.getD ("col_" ++ toString (i + j))) meta[j]? := by
  induction meta with
  | nil => intro i j; simp [headersFromMetaAux]
  | cons c rest ih =>
    intro i j
    cases j with
    | zero => simp [headersFromMetaAux]
    | succ j =>
      have harith : (i + 1) + j = i + (j + 1) := by omega
      simp only [headersFromMetaAux, List.getElem?_cons_succ]
      rw [ih (i + 1) j, harith]

theorem recordSet_of_not_key (k : String) (v : Option String) :
    ∀ obj : ParsedRow, (∀ p ∈ obj, p.1 ≠ k) → recordSet obj k v = obj ++ [(k, v)] := by
  intro obj
  induction obj with
  | nil => intro _; rfl
  | cons p rest ih =>
    intro hmem
    obtain ⟨k', v'⟩ := p
    have hne : k' ≠ k := hmem (k', v') (List.mem_cons_self _ _)
    simp only [recordSet, if_neg hne, List.cons_append, List.cons.injEq, true_and]
    exact ih (fun q hq => hmem q (List.mem_cons_of_mem _ hq))

theorem rowToObjectAux_eq_decodeFrom (row : Row) :
    ∀ (headers : List String), headers.Nodup →
      ∀ (obj : ParsedRow) (i : Nat), (∀ p ∈ obj, p.1 ∉ headers) →
        rowToObjectAux row obj i headers = obj ++ decodeFrom row i headers := by
  intro headers
  induction headers with
  | nil => intro _ obj i _; simp [rowToObjectAux, decodeFrom]
  | cons header rest ih =>
    intro hnd obj i hdisj
    have hset : recordSet obj header (cellAt row i) = obj ++ [(header, cellAt row i)] :=
      recordSet_of_not_key _ _ obj
        (fun p hp => fun hk => hdisj p hp (hk ▸ List.mem_cons_self _ _))
    have hnd' : rest.Nodup := (List.nodup_cons.mp hnd).2
    have hnotmem : header ∉ rest := (List.nodup_cons.mp hnd).1
    have hdisj' : ∀ p ∈ obj ++ [(header, cellAt row i)], p.1 ∉ rest := by
      intro p hp
      rcases List.mem_append.mp hp with hobj | hsingle
      · exact fun hk => hdisj p hobj (List.mem_cons_of_mem _ hk)
      · have : p = (header, cellAt row i) := List.mem_singleton.mp hsingle
        rw [this]
        exact hnotmem
    calc rowToObjectAux row obj i (header :: rest)
        = rowToObjectAux row (recordSet obj header (cellAt row i)) (i + 1) rest := rfl
      _ = (obj ++ [(header, cellAt row i)]) ++ decodeFrom row (i + 1) rest := by
          rw [hset]; exact ih hnd' _ (i + 1) hdisj'
      _ = obj ++ decodeFrom row i (header :: rest) := by
          simp [decodeFrom, List.append_assoc]

theorem decodeFrom_length (row : Row) :
    ∀ (headers : List String) (i : Nat), (decodeFrom row i headers).length = headers.length := by
  intro headers
  induction headers with
  | nil => intro i; rfl
  | cons header rest ih => intro i; simp [decodeFrom, ih]

theorem decodeFrom_get? (row : Row) :
    ∀ (headers : List String) (i j : Nat),
      (decodeFrom row i headers)[j]? =
        Option.map (fun h : String => (h, cellAt row (i + j))) headers[j]? := by
  intro headers
  induction headers with
  | nil => intro i j; simp [decodeFrom]
  | cons header rest ih =>
    intro i j
    cases j with
    | zero => simp [decodeFrom]
    | succ j =>
      have harith : (i + 1) + j = i + (j + 1) := by omega
      simp only [decodeFrom, List.getElem?_cons_succ]
      rw [ih (i + 1) j, harith]

theorem cellAt_of_data_le (row : Row) (i : Nat)
    (h : (row.Data.getD []).length ≤ i) : cellAt row i = none := by
  unfold cellAt
  cases hdata : row.Data with
  | none => rfl
  | some data =>
    rw [hdata] at h
    simp only [Option.getD_some] at h
    simp [List.get?_eq_getElem?, List.getElem?_eq_none h]

theorem isHeaderRowAux_iff (row : Row) :
    ∀ (headers : List String) (i : Nat),
      isHeaderRowAux row i headers = true ↔
        ∀ j : Nat, j < headers.length → cellAt row (i + j) = headers[j]? := by
  intro headers
  induction headers with
  | nil => intro i; simp [isHeaderRowAux]
  | cons header rest ih =>
    intro i
    simp only [isHeaderRowAux, Bool.and_eq_true, beq_iff_eq]
    constructor
    · rintro ⟨hhead, htail⟩ j hj
      cases j with
      | zero => simpa using hhead
      | succ j =>
        have := (ih (i + 1)).mp htail j (by simpa using hj)
        have harith : (i + 1) + j = i + (j + 1) := by omega
        rw [harith] at this
        simpa using this
    · intro hall
      constructor
      · simpa using hall 0 (by simp)
      · refine (ih (i + 1)).mpr (fun j hj => ?_)
        have := hall (j + 1) (by simpa using hj)
        have harith : (i + 1) + j = i + (j + 1) := by omega
        rw [harith]
        simpa using this

theorem initHeaders_headerRowDropped (s : ParserState) (meta : List ColumnInfo) :
    (initHeaders s meta).headerRowDropped = s.headerRowDropped := by
  unfold initHeaders
  cases s.headers with
  | none =>
    by_cases h : 0 < meta.length
    · simp [h]
    · simp [h]
  | some l => rfl

theorem initHeaders_of_some (s : ParserState) (meta : List ColumnInfo) (l : List String)
    (h : s.headers = some l) : initHeaders s meta = s := by
  unfold initHeaders
  rw [h]

theorem initHeaders_nil (s : ParserState) : initHeaders s [] = s := by
  unfold initHeaders
  cases s.headers with
  | none => simp
  | some l => rfl

theorem headersFromMeta_ne_nil (meta : List ColumnInfo) (h : 0 < meta.length) :
    headersFromMeta meta ≠ [] := by
  intro hcontra
  have := headersFromMetaAux_length meta 0
  rw [show headersFromMetaAux 0 meta = headersFromMeta meta from rfl, hcontra] at this
  simp at this
  omega

theorem initHeaders_headersInv (s : ParserState) (meta : List ColumnInfo)
    (h : headersInv s) : headersInv (initHeaders s meta) := by
  unfold initHeaders
  cases hh : s.headers with
  | none =>
    by_cases hl : 0 < meta.length
    · simp [hl, headersInv, headersFromMeta_ne_nil meta hl]
    · simp [hl, headersInv, hh]
  | some l => exact h

theorem parseResultSet_snd_headers (s : ParserState) (rs : Option ResultSet) :
    (parseResultSet s rs).2.headers =
      (match rs with
       | none => s.headers
       | some r =>
         (initHeaders s ((r.ResultSetMetadata.bind (fun m => m.ColumnInfo)).getD [])).headers) := by
  cases rs with
  | none => rfl
  | some r =>
    unfold parseResultSet
    cases hh : (initHeaders s ((r.ResultSetMetadata.bind (fun m => m.ColumnInfo)).getD [])).headers with
    | none => simp [hh]
    | some headers =>
      simp only [hh]
      split <;> simp [hh]

theorem foldl_pushStep_eq_filterMap {T : Type} (f : ParsedRow → Option T) :
    ∀ (rows : List ParsedRow) (acc : List T),
      rows.foldl (pushStep f) acc = acc ++ rows.filterMap f := by
  intro rows
  induction rows with
  | nil => intro acc; simp
  | cons r rest ih =>
    intro acc
    cases hf : f r with
    | none => simp [pushStep, hf, ih]
    | some t => simp [pushStep, hf, ih]

theorem parseResultSetWith_fst {T : Type} (s : ParserState) (rs : Option ResultSet)
    (f : ParsedRow → Option T) :
    (parseResultSetWith s rs f).1 = ((parseResultSet s rs).1).filterMap f := by
  unfold parseResultSetWith
  simp [foldl_pushStep_eq_filterMap]

theorem parseResultSetWith_snd {T : Type} (s : ParserState) (rs : Option ResultSet)
    (f : ParsedRow → Option T) :
    (parseResultSetWith s rs f).2 = (parseResultSet s rs).2 := rfl

theorem length_filterMap_eq_length_filter {T : Type} (f : ParsedRow → Option T) :
    ∀ rows : List ParsedRow,
      (rows.filterMap f).length = (rows.filter (fun r => (f r).isSome)).length := by
  intro rows
  induction rows with
  | nil => rfl
  | cons r rest ih =>
    cases hf : f r with
    | none => simp [List.filterMap_cons, List.filter_cons, hf, ih]
    | some t => simp [List.filterMap_cons, List.filter_cons, hf, ih]

/-! ## Claim theorems -/

/-- Claim C2, counterexample: the claim says an empty display name is
replaced by the positional placeholder, but `?? ` only substitutes for a
nullish `Name`, so the empty string is kept verbatim: on the single
column `{ Name: "" }` the code yields `[""]`, not `["col_0"]`. -/
theorem headersFromMeta_empty_name_cex :
    headersFromMeta [⟨some ""⟩] = [""] ∧ ([""] : List String) ≠ ["col_0"] := by
  constructor
  · rfl
  · decide

/-- Claim C2 (amended): for every ColumnMeta list of length n,
`headersFromMeta` returns a list of length n in the same order, where
position i is the column's display name when it is present (even when
empty), and the placeholder `col_i` (0-based) exactly when the name is
absent. -/
theorem headersFromMeta_spec (meta : List ColumnInfo) :
    (headersFromMeta meta).length = meta.length ∧
    ∀ i : Nat, (headersFromMeta meta)[i]? =
      Option.map (fun c : ColumnInfo => c.Name.getD ("col_" ++ toString i)) meta[i]? := by
  constructor
  · exact headersFromMetaAux_length meta 0
  · intro i
    have h := headersFromMetaAux_get? meta 0 i
    simpa using h

/-- Claim C3, counterexample: a JS object cannot hold two entries under
the same key, so for the duplicate header list `["a", "a"]` the decoded
row has a single entry (holding the later cell), not
`len(HeaderList) = 2` entries as the claim states. -/
theorem rowToObject_dup_headers_cex :
    rowToObject ⟨some [⟨some "x"⟩, ⟨some "y"⟩]⟩ ["a", "a"] = [("a", some "y")] ∧
    (rowToObject ⟨some [⟨some "x"⟩, ⟨some "y"⟩]⟩ ["a", "a"]).length ≠
      (["a", "a"] : List String).length := by
  constructor
  · rfl
  · decide

/-- Claim C3 (amended): for every RawRow and every HeaderList with
pairwise-distinct names, `rowToObject` returns a ParsedRow with exactly
`len(HeaderList)` entries in header order, entry i holding the raw cell
value at position i when present and null otherwise; positions beyond
the row's data yield null without failure, and cells beyond
`len(HeaderList)` are never consulted. -/
theorem rowToObject_spec (row : Row) (headers : List String) (hnd : headers.Nodup) :
    (rowToObject row headers).length = headers.length ∧
    (∀ i : Nat, (rowToObject row headers)[i]? =
      Option.map (fun h : String => (h, cellAt row i)) headers[i]?) ∧
    (∀ i : Nat, (row.Data.getD []).length ≤ i → cellAt row i = none) := by
  have heq : rowToObject row headers = decodeFrom row 0 headers := by
    have h := rowToObjectAux_eq_decodeFrom row headers hnd [] 0 (by simp)
    simpa [rowToObject] using h
  refine ⟨?_, ?_, fun i h => cellAt_of_data_le row i h⟩
  · rw [heq]
    exact decodeFrom_length row headers 0
  · intro i
    rw [heq]
    have h := decodeFrom_get? row headers 0 i
    simpa using h

/-- Witness for claim C3 at a concrete input: distinct headers
`["a", "b", "c"]` against a two-cell row give three entries. -/
theorem rowToObject_spec_witness :
    (["a", "b", "c"] : List String).Nodup ∧
    (rowToObject ⟨some [⟨some "x"⟩, ⟨some "y"⟩]⟩ ["a", "b", "c"]).length = 3 := by
  refine ⟨by decide, ?_⟩
  have h := rowToObject_spec ⟨some [⟨some "x"⟩, ⟨some "y"⟩]⟩ ["a", "b", "c"] (by decide)
  simpa using h.1

/-- Claim C4: `isHeaderRow` returns true iff the row has at least one
cell and every raw cell at an index below `len(HeaderList)` (absent
treated as null) equals the header at that index exactly; in particular
a row with no cells yields false even for an empty HeaderList. -/
theorem isHeaderRow_iff (row : Row) (headers : List String) :
    isHeaderRow row headers = true ↔
      ((row.Data.getD []).length ≠ 0 ∧
        ∀ i : Nat, i < headers.length → cellAt row i = headers[i]?) := by
  unfold isHeaderRow
  cases hdata : row.Data with
  | none => simp
  | some data =>
    cases data with
    | nil => simp
    | cons d ds =>
      have hiff := isHeaderRowAux_iff row headers 0
      simp only [Nat.zero_add] at hiff
      simp [hiff]

/-- Witness for claim C4: a concrete row positionally equal to the
headers is recognized, via the equivalence. -/
theorem isHeaderRow_iff_witness :
    isHeaderRow ⟨some [⟨some "a"⟩, ⟨some "b"⟩]⟩ ["a", "b"] = true :=
  (isHeaderRow_iff ⟨some [⟨some "a"⟩, ⟨some "b"⟩]⟩ ["a", "b"]).mpr
    ⟨by decide, by decide⟩

/-- Claim C5: header initialization is idempotent and one-way per
session — once headers are set, any later `initHeaders` call (with any
metadata, including a different one) leaves the whole state unchanged;
and an `initHeaders` call with empty metadata is a no-op. -/
theorem initHeaders_idempotent (s : ParserState) (meta : List ColumnInfo) (l : List String) :
    (s.headers = some l → initHeaders s meta = s) ∧ initHeaders s [] = s :=
  ⟨fun h => initHeaders_of_some s meta l h, initHeaders_nil s⟩

/-- Witness for claim C5: headers `["id", "name"]` survive a second
initialization with different metadata `["x", "y"]`. -/
theorem initHeaders_idempotent_witness :
    (({ headers := some ["id", "name"], headerRowDropped := false } : ParserState).headers
      = some ["id", "name"]) ∧
    initHeaders { headers := some ["id", "name"], headerRowDropped := false }
        [⟨some "x"⟩, ⟨some "y"⟩]
      = { headers := some ["id", "name"], headerRowDropped := false } :=
  ⟨rfl,
    (initHeaders_idempotent { headers := some ["id", "name"], headerRowDropped := false }
      [⟨some "x"⟩, ⟨some "y"⟩] ["id", "name"]).1 rfl⟩

/-- Claim C6: parse is total and degrades absent input to the empty
result — parsing an absent result set returns `[]` and leaves the state
unchanged, and parsing `{ metadata: absent, rows: absent }` with no
headers previously set also returns `[]` with the state unchanged. -/
theorem parseResultSet_total_on_absent (s : ParserState) :
    parseResultSet s none = ([], s) ∧
    (s.headers = none → parseResultSet s (some ⟨none, none⟩) = ([], s)) := by
  refine ⟨rfl, fun h => ?_⟩
  simp [parseResultSet, initHeaders_nil, h]

/-- Witness for claim C6 on the freshly constructed parser. -/
theorem parseResultSet_total_on_absent_witness :
    initState.headers = none ∧
    parseResultSet initState (some ⟨none, none⟩) = ([], initState) :=
  ⟨rfl, (parseResultSet_total_on_absent initState).2 rfl⟩

/-- Claim C7: `parseResultSetWith` returns, in input order, exactly the
transform results of the rows produced by `parseResultSet` for which
the transform did not return the skip marker — each kept row
contributes one output element, each skipped row none — and it has the
same state effect as the underlying parse. -/
theorem parseResultSetWith_filters_skip {T : Type} (s : ParserState)
    (rs : Option ResultSet) (f : ParsedRow → Option T) :
    (parseResultSetWith s rs f).1 = ((parseResultSet s rs).1).filterMap f ∧
    ((parseResultSetWith s rs f).1).length =
      (((parseResultSet s rs).1).filter (fun r => (f r).isSome)).length ∧
    (parseResultSetWith s rs f).2 = (parseResultSet s rs).2 := by
  refine ⟨parseResultSetWith_fst s rs f, ?_, parseResultSetWith_snd s rs f⟩
  rw [parseResultSetWith_fst s rs f]
  exact length_filterMap_eq_length_filter f _

/-- Claim C8: `reset` returns the parser to the freshly constructed
state, so any subsequent sequence of parse calls produces the same
outputs and state evolution as on a new parser. -/
theorem reset_equals_fresh (s : ParserState) :
    reset s = initState ∧
    ∀ inputs : List (Option ResultSet),
      runParses (reset s) inputs = runParses initState inputs :=
  ⟨rfl, fun _ => rfl⟩

/-- Claim C9: in every reachable state the stored headers are either
the null sentinel or a non-empty list; the invariant holds initially,
is preserved by every public operation, and `getHeaders` never returns
an empty list. -/
theorem headersInv_preserved :
    headersInv initState ∧
    (∀ (s : ParserState) (meta : List ColumnInfo),
      headersInv s → headersInv (initHeaders s meta)) ∧
    (∀ (s : ParserState) (rs : Option ResultSet),
      headersInv s → headersInv (parseResultSet s rs).2) ∧
    (∀ (T : Type) (s : ParserState) (rs : Option ResultSet) (f : ParsedRow → Option T),
      headersInv s → headersInv (parseResultSetWith s rs f).2) ∧
    (∀ s : ParserState, headersInv (reset s)) ∧
    (∀ s : ParserState, headersInv s → getHeaders s ≠ some []) := by
  have hparse : ∀ (s : ParserState) (rs : Option ResultSet),
      headersInv s → headersInv (parseResultSet s rs).2 := by
    intro s rs h
    unfold headersInv
    rw [parseResultSet_snd_headers]
    cases rs with
    | none => exact h
    | some r => exact initHeaders_headersInv s _ h
  refine ⟨?_, fun s meta h => initHeaders_headersInv s meta h, hparse, ?_, ?_, ?_⟩
  · intro hcontra
    cases hcontra
  · intro T s rs f h
    rw [parseResultSetWith_snd s rs f]
    exact hparse s rs h
  · intro s
    intro hcontra
    cases hcontra
  · exact fun s h => h

/-- Witness for claim C9: the invariant holds on the fresh parser and
is preserved across a concrete parse call. -/
theorem headersInv_preserved_witness :
    headersInv initState ∧
    headersInv (parseResultSet initState (some ⟨none, none⟩)).2 :=
  ⟨headersInv_preserved.1,
    headersInv_preserved.2.2.1 initState (some ⟨none, none⟩) headersInv_preserved.1⟩

/-- Claim C10: the transform filter tests strictly against the null
marker — any transform result other than the null marker, including a
JS-`undefined`-like absent value of the output type, is appended to the
output; only results strictly equal to null are excluded. -/
theorem parseResultSetWith_keeps_nonnull :
    (∀ (T : Type) (s : ParserState) (rs : Option ResultSet) (f : ParsedRow → Option T)
        (r : ParsedRow) (t : T),
      r ∈ (parseResultSet s rs).1 → f r = some t → t ∈ (parseResultSetWith s rs f).1) ∧
    (∀ (α : Type) (s : ParserState) (rs : Option ResultSet)
        (f : ParsedRow → Option (Option α)) (r : ParsedRow),
      r ∈ (parseResultSet s rs).1 → f r = some none →
        (none : Option α) ∈ (parseResultSetWith s rs f).1) := by
  have hgen : ∀ (T : Type) (s : ParserState) (rs : Option ResultSet) (f : ParsedRow → Option T)
      (r : ParsedRow) (t : T), r ∈ (parseResultSet s rs).1 → f r = some t →
        t ∈ (parseResultSetWith s rs f).1 := by
    intro T s rs f r t hmem hf
    rw [parseResultSetWith_fst]
    exact List.mem_filterMap.mpr ⟨r, hmem, hf⟩
  exact ⟨hgen, fun α s rs f r hmem hf => hgen (Option α) s rs f r none hmem hf⟩

/-- Witness for claim C10: a transform that returns an
undefined-like value (`some none`, distinct from the null marker
`none`) on the decoded row sees that value appended to the output. -/
theorem parseResultSetWith_keeps_nonnull_witness :
    (none : Option String) ∈
      (parseResultSetWith initState
        (some ⟨some ⟨some [⟨some "a"⟩]⟩, some [⟨some [⟨some "1"⟩]⟩]⟩)
        (fun _ => some (none : Option String))).1 :=
  parseResultSetWith_keeps_nonnull.2 String initState
    (some ⟨some ⟨some [⟨some "a"⟩]⟩, some [⟨some [⟨some "1"⟩]⟩]⟩)
    (fun _ => some none) [("a", some "1")] (by decide) rfl

/-- Claim C1: header-row suppression happens at most once per session.
On a parse call whose post-initialization headers are `hdrs`, with the
header-row-consumed flag still false and a first row that duplicates
the headers, that first row is excluded, the remaining rows are decoded
in input order, and the flag is set; on any later call in the same
session (flag already true) a first row equal to the headers is not
suppressed and all rows are decoded as data in input order. -/
theorem parseResultSet_suppresses_header_once
    (s : ParserState) (hdrs : List String) (first : Row) (rest rest2 : List Row)
    (m1 m2 : Option ResultSetMetadata)
    (hinit : (initHeaders s ((m1.bind (fun m => m.ColumnInfo)).getD [])).headers = some hdrs)
    (hflag : s.headerRowDropped = false)
    (hdup : isHeaderRow first hdrs = true) :
    parseResultSet s (some ⟨m1, some (first :: rest)⟩) =
      (rest.map (fun row => rowToObject row hdrs),
        { headers := some hdrs, headerRowDropped := true }) ∧
    parseResultSet { headers := some hdrs, headerRowDropped := true }
        (some ⟨m2, some (first :: rest2)⟩) =
      ((first :: rest2).map (fun row => rowToObject row hdrs),
        { headers := some hdrs, headerRowDropped := true }) := by
  have hs1flag : (initHeaders s ((m1.bind (fun m => m.ColumnInfo)).getD [])).headerRowDropped
      = false := by
    rw [initHeaders_headerRowDropped]
    exact hflag
  constructor
  · unfold parseResultSet
    simp [hinit, hs1flag, hdup]
  · unfold parseResultSet
    simp [initHeaders_of_some { headers := some hdrs, headerRowDropped := true }
      ((m2.bind (fun m => m.ColumnInfo)).getD []) hdrs rfl]

/-- Witness for claim C1: on the batch whose first row repeats the
headers `["id", "name"]` only the data row survives and the flag is
consumed; a second call whose first row again equals the headers
decodes it as data. -/
theorem parseResultSet_suppresses_header_once_witness :
    parseResultSet initState
        (some ⟨some ⟨some [⟨some "id"⟩, ⟨some "name"⟩]⟩,
          some [⟨some [⟨some "id"⟩, ⟨some "name"⟩]⟩,
                ⟨some [⟨some "1"⟩, ⟨some "Alice"⟩]⟩]⟩) =
      ([[("id", some "1"), ("name", some "Alice")]],
        { headers := some ["id", "name"], headerRowDropped := true }) ∧
    parseResultSet { headers := some ["id", "name"], headerRowDropped := true }
        (some ⟨none, some [⟨some [⟨some "id"⟩, ⟨some "name"⟩]⟩]⟩) =
      ([[("id", some "id"), ("name", some "name")]],
        { headers := some ["id", "name"], headerRowDropped := true }) := by
  have h := parseResultSet_suppresses_header_once initState ["id", "name"]
    ⟨some [⟨some "id"⟩, ⟨some "name"⟩]⟩ [⟨some [⟨some "1"⟩, ⟨some "Alice"⟩]⟩] []
    (some ⟨some [⟨some "id"⟩, ⟨some "name"⟩]⟩) none (by decide) rfl (by decide)
  refine ⟨?_, ?_⟩
  · rw [h.1]
    decide
  · rw [h.2]
    decide

end AthenaParser
